import Mathlib

/-!
Shallow embedding of the quick-quote question store API
(`src/app/api/questions/route.ts` and the `DELETE /api/questions/[id]`
handler) over an explicit relational state.

The database is modelled as two lists of rows (`questions`,
`question_options`); SQLite's rowid allocation is modelled as
`max existing id + 1`.  Each handler is a pure function from the
database state and the parsed request body to a response, the new
database state, and the list of write statements it executed (in
order), so that "zero writes" and "question row inserted before any
option row" are expressible.

JSON-serialised values (`input_config`) are carried as their serialised
string; optional request fields use `Option`, with `none` standing for
an absent-or-null JSON field wherever the TypeScript code collapses the
two with `??`.
-/

namespace QuickQuote

/-- A row of the `questions` table. -/
structure QuestionRow where
  id : Nat
  field : String
  text : String
  subtext : String
  type : String
  hint : String
  validation_key : Option String
  input_config : Option String
  next_question_id : Option Int
deriving Repr, DecidableEq

/-- A row of the `question_options` table. -/
structure OptionRow where
  id : Nat
  question_id : Nat
  label : String
  next_question_id : Option Int
  price_modifier : Int
deriving Repr, DecidableEq

/-- The `OptionIn` request shape: `id?`, `label`, `next_question_id?`,
`price_modifier?`. -/
structure OptionIn where
  id : Option Nat
  label : String
  next_question_id : Option Int
  price_modifier : Option Int
deriving Repr, DecidableEq

/-- The `QuestionIn` request shape. -/
structure QuestionIn where
  id : Option Nat
  field : String
  text : String
  subtext : Option String
  type : String
  hint : Option String
  validationKey : Option String
  input : Option String
  next_question_id : Option Int
  options : Option (List OptionIn)
deriving Repr, DecidableEq

/-- The relational store: the two tables. -/
structure DB where
  questions : List QuestionRow
  options : List OptionRow
deriving Repr, DecidableEq

/-- One option object inside a GET aggregate.  All fields are nullable
because the SQL `json_object` built over a LEFT JOIN emits `null`
fields for a question with no matching option row. -/
structure OptionAgg where
  id : Option Nat
  label : Option String
  next_question_id : Option Int
  price_modifier : Option Int
deriving Repr, DecidableEq

/-- One question aggregate returned by GET. -/
structure QuestionAgg where
  id : Nat
  field : String
  text : String
  subtext : String
  type : String
  hint : String
  validationKey : Option String
  input : Option String
  next_question_id : Option Int
  options : List OptionAgg
deriving Repr, DecidableEq

/-- Responses of the API handlers. -/
inductive ApiResponse where
  | list (qs : List QuestionAgg)
  | created (q : QuestionRow)
  | ok
  | err (status : Nat) (msg : String)
deriving Repr, DecidableEq

/-- HTTP status of a response (`list` 200, `created` 201, `ok` 200). -/
def ApiResponse.status : ApiResponse → Nat
  | .list _ => 200
  | .created _ => 201
  | .ok => 200
  | .err s _ => s

/-- A write statement executed against the store, in program order. -/
inductive Write where
  | insertQuestion (r : QuestionRow)
  | insertOption (r : OptionRow)
  | updateQuestion (id : Nat)
  | upsertOption (oid : Option Nat) (qid : Nat) (label : String)
      (next : Option Int) (pm : Int)
  | deleteOptionsNotIn (qid : Nat) (kept : List Nat)
  | deleteQuestion (id : Nat)
deriving Repr, DecidableEq

/-- Largest element of a list of ids (0 when empty). -/
def maxId (l : List Nat) : Nat := l.foldl max 0

/-- SQLite rowid allocation for the `questions` table. -/
def freshQuestionId (qs : List QuestionRow) : Nat :=
  maxId (qs.map QuestionRow.id) + 1

/-- SQLite rowid allocation for the `question_options` table. -/
def freshOptionId (os : List OptionRow) : Nat :=
  maxId (os.map OptionRow.id) + 1

/-- JavaScript `String.prototype.trim`: strip leading and trailing
whitespace.  Written over the character list so that it reduces in the
kernel. -/
def trimString (s : String) : String :=
  ⟨((s.data.dropWhile Char.isWhitespace).reverse.dropWhile
      Char.isWhitespace).reverse⟩

/-- `!opt.label.trim()`: the label is empty after trimming. -/
def blankLabel (o : OptionIn) : Bool := trimString o.label == ""

/-- `body.options?.some(opt => !opt.label.trim())` (absent array ⇒ false). -/
def anyBlankLabel (opts : Option (List OptionIn)) : Bool :=
  match opts with
  | none => false
  | some l => l.any blankLabel

/-- The `json_object` built from a real option row. -/
def rowToAgg (o : OptionRow) : OptionAgg :=
  ⟨some o.id, some o.label, o.next_question_id, some o.price_modifier⟩

/-- The all-null `json_object` produced by the LEFT JOIN when a
question has no option rows. -/
def nullOptionAgg : OptionAgg := ⟨none, none, none, none⟩

/-- `json_group_array(json_object(...))` for one question's group: the
group of a question with no option rows still holds one joined row,
whose option columns are all NULL. -/
def optionsAggForQuestion (options : List OptionRow) (qid : Nat) : List OptionAgg :=
  let rows := options.filter (fun o => o.question_id == qid)
  if rows.isEmpty then [nullOptionAgg] else rows.map rowToAgg

/-- `GET /api/questions`: list all questions with aggregated options. -/
def GET (db : DB) : ApiResponse :=
  ApiResponse.list (db.questions.map (fun q =>
    ⟨q.id, q.field, q.text, q.subtext, q.type, q.hint, q.validation_key,
     q.input_config, q.next_question_id,
     optionsAggForQuestion db.options q.id⟩))

/-- The question row inserted by POST (optional fields collapsed with
`?? ''` / `?? null`). -/
def questionRowOf (qid : Nat) (b : QuestionIn) : QuestionRow :=
  ⟨qid, b.field, b.text, b.subtext.getD "", b.type, b.hint.getD "",
   b.validationKey, b.input, b.next_question_id⟩

/-- The option row inserted for one `OptionIn` (`price_modifier ?? 0`). -/
def optionRowOf (oid qid : Nat) (o : OptionIn) : OptionRow :=
  ⟨oid, qid, o.label, o.next_question_id, o.price_modifier.getD 0⟩

/-- One iteration of POST's option-insert loop. -/
def postInsertOption (qid : Nat) (st : List OptionRow × List Write)
    (o : OptionIn) : List OptionRow × List Write :=
  let r := optionRowOf (freshOptionId st.1) qid o
  (st.1 ++ [r], st.2 ++ [Write.insertOption r])

/-- `POST /api/questions`: validate labels, insert the question row,
then insert each option row tagged with the generated question id. -/
def POST (db : DB) (body : QuestionIn) : ApiResponse × DB × List Write :=
  if anyBlankLabel body.options then
    (ApiResponse.err 400 "Option labels cannot be empty", db, [])
  else
    let qId := freshQuestionId db.questions
    let qrow := questionRowOf qId body
    let st := (body.options.getD []).foldl (postInsertOption qId) (db.options, [])
    (ApiResponse.created qrow, ⟨db.questions ++ [qrow], st.1⟩,
     Write.insertQuestion qrow :: st.2)

/-- The `UPDATE questions SET ... WHERE id = ?` statement applied to
one stored row. -/
def updateQuestionRow (b : QuestionIn) (qid : Nat) (q : QuestionRow) : QuestionRow :=
  if q.id == qid then
    ⟨q.id, b.field, b.text, b.subtext.getD "", b.type, b.hint.getD "",
     b.validationKey, b.input, b.next_question_id⟩
  else q

/-- One iteration of PUT's option loop: `INSERT ... ON CONFLICT(id) DO
UPDATE SET label, next_question_id, price_modifier` (the conflict
branch does not touch `question_id`), pushing the processed option's
post-upsert id onto `seenIds`. -/
def upsertOneOption (qid : Nat) (st : List OptionRow × List Nat)
    (o : OptionIn) : List OptionRow × List Nat :=
  match o.id with
  | some oid =>
    if st.1.any (fun r => r.id == oid) then
      (st.1.map (fun r =>
        if r.id == oid then
          ⟨r.id, r.question_id, o.label, o.next_question_id, o.price_modifier.getD 0⟩
        else r),
       st.2 ++ [oid])
    else
      (st.1 ++ [⟨oid, qid, o.label, o.next_question_id, o.price_modifier.getD 0⟩],
       st.2 ++ [oid])
  | none =>
    let nid := freshOptionId st.1
    (st.1 ++ [⟨nid, qid, o.label, o.next_question_id, o.price_modifier.getD 0⟩],
     st.2 ++ [nid])

/-- PUT's option loop over the whole incoming array, returning the new
option table and the `seenIds` list. -/
def putUpsert (qid : Nat) (opts : List OptionRow) (os : List OptionIn) :
    List OptionRow × List Nat :=
  os.foldl (upsertOneOption qid) (opts, [])

/-- The post-upsert "kept" set of processed option ids. -/
def keptIds (qid : Nat) (opts : List OptionRow) (os : List OptionIn) : List Nat :=
  (putUpsert qid opts os).2

/-- `DELETE FROM question_options WHERE question_id = ? AND id NOT IN
(kept)`. -/
def deleteStale (qid : Nat) (kept : List Nat) (opts : List OptionRow) :
    List OptionRow :=
  opts.filter (fun r => !(r.question_id == qid && !(kept.contains r.id)))

/-- `PUT /api/questions`: id check, label check, scalar overwrite,
per-option upsert, then delete of unlisted option rows (skipped when
`seenIds` is empty). -/
def PUT (db : DB) (body : QuestionIn) : ApiResponse × DB × List Write :=
  match body.id with
  | none => (ApiResponse.err 400 "id is required for PUT", db, [])
  | some questionId =>
    if anyBlankLabel body.options then
      (ApiResponse.err 400 "Option labels cannot be empty", db, [])
    else
      let qs := db.questions.map (updateQuestionRow body questionId)
      let res := putUpsert questionId db.options (body.options.getD [])
      let opts2 := if res.2.isEmpty then res.1
                   else deleteStale questionId res.2 res.1
      let ws := Write.updateQuestion questionId ::
                ((body.options.getD []).map (fun o =>
                  Write.upsertOption o.id questionId o.label o.next_question_id
                    (o.price_modifier.getD 0)) ++
                 (if res.2.isEmpty then []
                  else [Write.deleteOptionsNotIn questionId res.2]))
      (ApiResponse.ok, ⟨qs, opts2⟩, ws)

/-- `DELETE /api/questions/[id]`: delete the question row by id; the
API layer touches no option rows. -/
def DELETE (db : DB) (qid : Nat) : ApiResponse × DB × List Write :=
  (ApiResponse.ok, ⟨db.questions.filter (fun q => !(q.id == qid)), db.options⟩,
   [Write.deleteQuestion qid])

/-- The pure per-row effect of PUT's conflict-update branch for one
incoming option: a row whose id matches the option's (present) id gets
its label, next_question_id and price_modifier replaced.  Used to
characterise the upsert loop when every incoming id already exists. -/
def updOne (o : OptionIn) (r : OptionRow) : OptionRow :=
  match o.id with
  | some oid =>
    if r.id == oid then
      ⟨r.id, r.question_id, o.label, o.next_question_id,
       o.price_modifier.getD 0⟩
    else r
  | none => r

/-- The cumulative per-row effect of the whole option array. -/
def applyAll (os : List OptionIn) (r : OptionRow) : OptionRow :=
  os.foldl (fun acc o => updOne o acc) r

/-! ### Helper lemmas -/

theorem foldl_max_init_le (l : List Nat) (a : Nat) : a ≤ l.foldl max a := by
  induction l generalizing a with
  | nil => exact Nat.le_refl a
  | cons b t ih => exact Nat.le_trans (Nat.le_max_left a b) (ih (max a b))

theorem le_foldl_max (l : List Nat) (a : Nat) : ∀ x ∈ l, x ≤ l.foldl max a := by
  induction l generalizing a with
  | nil => intro x hx; cases hx
  | cons b t ih =>
    intro x hx
    rcases List.mem_cons.mp hx with rfl | hx
    · exact Nat.le_trans (Nat.le_max_right a x) (foldl_max_init_le t (max a x))
    · exact ih (max a b) x hx

theorem freshOptionId_not_mem (opts : List OptionRow) :
    freshOptionId opts ∉ opts.map OptionRow.id := by
  intro hmem
  have := le_foldl_max (opts.map OptionRow.id) 0 _ hmem
  simp only [freshOptionId, maxId] at this
  omega

theorem anyBlankLabel_of_mem {opts : Option (List OptionIn)} {o : OptionIn}
    (ho : o ∈ opts.getD []) (hlab : trimString o.label = "") :
    anyBlankLabel opts = true := by
  cases opts with
  | none => simp at ho
  | some l =>
    simp only [Option.getD_some] at ho
    simp only [anyBlankLabel, List.any_eq_true]
    exact ⟨o, ho, by simp [blankLabel, hlab]⟩

/-! ### Claim theorems -/

/-- C8: for every PUT request whose body lacks an id, the handler
returns a 400 response with error "id is required for PUT" and
performs no store writes. -/
theorem put_missing_id_rejected (db : DB) (body : QuestionIn)
    (h : body.id = none) :
    (PUT db body).1 = ApiResponse.err 400 "id is required for PUT" ∧
    (PUT db body).1.status = 400 ∧
    (PUT db body).2.1 = db ∧ (PUT db body).2.2 = [] := by
  simp [PUT, h, ApiResponse.status]

/-- Witness for C8 at a concrete request with no id. -/
theorem put_missing_id_rejected_witness :
    (⟨none, "f", "t", none, "text", none, none, none, none, none⟩ :
      QuestionIn).id = none ∧
    ((PUT ⟨[], []⟩ ⟨none, "f", "t", none, "text", none, none, none, none, none⟩).1 =
        ApiResponse.err 400 "id is required for PUT" ∧
     (PUT ⟨[], []⟩ ⟨none, "f", "t", none, "text", none, none, none, none, none⟩).1.status = 400 ∧
     (PUT ⟨[], []⟩ ⟨none, "f", "t", none, "text", none, none, none, none, none⟩).2.1 = ⟨[], []⟩ ∧
     (PUT ⟨[], []⟩ ⟨none, "f", "t", none, "text", none, none, none, none, none⟩).2.2 = []) :=
  ⟨rfl, put_missing_id_rejected ⟨[], []⟩ _ rfl⟩

/-- C2: a PUT whose incoming options array is empty skips the delete
step entirely: the stored option rows are unchanged and the only write
is the scalar question update. -/
theorem put_empty_options_no_delete (db : DB) (body : QuestionIn) (qid : Nat)
    (h1 : body.id = some qid) (h2 : body.options = some []) :
    (PUT db body).2.1.options = db.options ∧
    (PUT db body).2.2 = [Write.updateQuestion qid] := by
  simp [PUT, h1, h2, anyBlankLabel, putUpsert]

/-- Witness for C2 at a concrete store and empty-options update. -/
theorem put_empty_options_no_delete_witness :
    (⟨some 1, "f", "t", none, "radio", none, none, none, none, some []⟩ :
      QuestionIn).id = some 1 ∧
    (⟨some 1, "f", "t", none, "radio", none, none, none, none, some []⟩ :
      QuestionIn).options = some [] ∧
    ((PUT ⟨[⟨1, "f", "t", "", "radio", "", none, none, none⟩],
           [⟨5, 1, "A", none, 0⟩]⟩
        ⟨some 1, "f", "t", none, "radio", none, none, none, none, some []⟩).2.1.options =
      [⟨5, 1, "A", none, 0⟩] ∧
     (PUT ⟨[⟨1, "f", "t", "", "radio", "", none, none, none⟩],
           [⟨5, 1, "A", none, 0⟩]⟩
        ⟨some 1, "f", "t", none, "radio", none, none, none, none, some []⟩).2.2 =
      [Write.updateQuestion 1]) :=
  ⟨rfl, rfl, put_empty_options_no_delete _ _ 1 rfl rfl⟩

/-- C3: a request containing an option whose label is blank after
trimming is rejected by POST, and by PUT whenever it carries an id,
with a 400 "Option labels cannot be empty" response and zero writes. -/
theorem blank_label_rejected (db : DB) (body : QuestionIn)
    (h : ∃ o ∈ body.options.getD [], trimString o.label = "") :
    ((POST db body).1 = ApiResponse.err 400 "Option labels cannot be empty" ∧
     (POST db body).1.status = 400 ∧
     (POST db body).2.1 = db ∧ (POST db body).2.2 = []) ∧
    (body.id ≠ none →
     ((PUT db body).1 = ApiResponse.err 400 "Option labels cannot be empty" ∧
      (PUT db body).1.status = 400 ∧
      (PUT db body).2.1 = db ∧ (PUT db body).2.2 = [])) := by
  obtain ⟨o, ho, hlab⟩ := h
  have hb : anyBlankLabel body.options = true := anyBlankLabel_of_mem ho hlab
  refine ⟨by simp [POST, hb, ApiResponse.status], ?_⟩
  intro hid
  cases hi : body.id with
  | none => exact absurd hi hid
  | some qid => simp [PUT, hi, hb, ApiResponse.status]

/-- Witness for C3 at a request holding a whitespace-only label. -/
theorem blank_label_rejected_witness :
    (∃ o ∈ (⟨some 1, "f", "t", none, "radio", none, none, none, none,
              some [⟨none, " ", none, none⟩]⟩ :
        QuestionIn).options.getD [], trimString o.label = "") ∧
    (((POST ⟨[], []⟩ ⟨some 1, "f", "t", none, "radio", none, none, none, none,
          some [⟨none, " ", none, none⟩]⟩).1 =
        ApiResponse.err 400 "Option labels cannot be empty" ∧
      (POST ⟨[], []⟩ ⟨some 1, "f", "t", none, "radio", none, none, none, none,
          some [⟨none, " ", none, none⟩]⟩).1.status = 400 ∧
      (POST ⟨[], []⟩ ⟨some 1, "f", "t", none, "radio", none, none, none, none,
          some [⟨none, " ", none, none⟩]⟩).2.1 = ⟨[], []⟩ ∧
      (POST ⟨[], []⟩ ⟨some 1, "f", "t", none, "radio", none, none, none, none,
          some [⟨none, " ", none, none⟩]⟩).2.2 = []) ∧
     ((⟨some 1, "f", "t", none, "radio", none, none, none, none,
         some [⟨none, " ", none, none⟩]⟩ : QuestionIn).id ≠ none →
      ((PUT ⟨[], []⟩ ⟨some 1, "f", "t", none, "radio", none, none, none, none,
          some [⟨none, " ", none, none⟩]⟩).1 =
         ApiResponse.err 400 "Option labels cannot be empty" ∧
       (PUT ⟨[], []⟩ ⟨some 1, "f", "t", none, "radio", none, none, none, none,
          some [⟨none, " ", none, none⟩]⟩).1.status = 400 ∧
       (PUT ⟨[], []⟩ ⟨some 1, "f", "t", none, "radio", none, none, none, none,
          some [⟨none, " ", none, none⟩]⟩).2.1 = ⟨[], []⟩ ∧
       (PUT ⟨[], []⟩ ⟨some 1, "f", "t", none, "radio", none, none, none, none,
          some [⟨none, " ", none, none⟩]⟩).2.2 = []))) :=
  ⟨⟨⟨none, " ", none, none⟩, by decide⟩,
   blank_label_rejected ⟨[], []⟩ _ ⟨⟨none, " ", none, none⟩, by decide⟩⟩

/-- C4 (divergence exhibit): for a stored question with no option rows,
GET returns the aggregate with a single all-null placeholder option
object — produced by `json_group_array(json_object(...))` over the
LEFT JOIN — not the empty array the claim requires. -/
theorem get_no_options_yields_placeholder :
    GET ⟨[⟨1, "age", "Your age?", "", "number", "", none, none, none⟩], []⟩ =
      ApiResponse.list [⟨1, "age", "Your age?", "", "number", "", none, none,
        none, [nullOptionAgg]⟩] ∧
    ([nullOptionAgg] : List OptionAgg) ≠ [] := ⟨rfl, by decide⟩

/-- C9: the option upsert in PUT does not verify ownership: updating
question 1 with an option whose id belongs to question 2 overwrites
that row's label, next_question_id and price_modifier while its
question_id stays 2. -/
theorem put_mutates_foreign_option :
    (PUT ⟨[⟨1, "f", "t", "", "radio", "", none, none, none⟩,
           ⟨2, "g", "u", "", "radio", "", none, none, none⟩],
          [⟨10, 2, "orig", none, 5⟩]⟩
       ⟨some 1, "f", "t", none, "radio", none, none, none, none,
        some [⟨some 10, "hijacked", some 7, some 3⟩]⟩).2.1.options =
      [⟨10, 2, "hijacked", some 7, 3⟩] ∧
    (PUT ⟨[⟨1, "f", "t", "", "radio", "", none, none, none⟩,
           ⟨2, "g", "u", "", "radio", "", none, none, none⟩],
          [⟨10, 2, "orig", none, 5⟩]⟩
       ⟨some 1, "f", "t", none, "radio", none, none, none, none,
        some [⟨some 10, "hijacked", some 7, some 3⟩]⟩).1 = ApiResponse.ok ∧
    (2 : Nat) ≠ 1 := by
  refine ⟨by decide, rfl, by decide⟩

/-- C10: neither PUT nor DELETE checks that the question exists: for an
id with no stored question row, a valid PUT body and a DELETE both get
the 200 `{ok:true}` acknowledgement. -/
theorem nonexistent_id_acknowledged (db : DB) (body : QuestionIn) (qid : Nat)
    (h1 : body.id = some qid) (h2 : anyBlankLabel body.options = false)
    (h3 : ∀ q ∈ db.questions, q.id ≠ qid) :
    (PUT db body).1 = ApiResponse.ok ∧ (PUT db body).1.status = 200 ∧
    (DELETE db qid).1 = ApiResponse.ok ∧ (DELETE db qid).1.status = 200 := by
  simp [PUT, h1, h2, DELETE, ApiResponse.status]

/-- Witness for C10 at an empty store and id 7. -/
theorem nonexistent_id_acknowledged_witness :
    (⟨some 7, "f", "t", none, "text", none, none, none, none, none⟩ :
      QuestionIn).id = some 7 ∧
    anyBlankLabel (⟨some 7, "f", "t", none, "text", none, none, none, none,
      none⟩ : QuestionIn).options = false ∧
    (∀ q ∈ (⟨[], []⟩ : DB).questions, q.id ≠ 7) ∧
    ((PUT ⟨[], []⟩ ⟨some 7, "f", "t", none, "text", none, none, none, none,
        none⟩).1 = ApiResponse.ok ∧
     (PUT ⟨[], []⟩ ⟨some 7, "f", "t", none, "text", none, none, none, none,
        none⟩).1.status = 200 ∧
     (DELETE ⟨[], []⟩ 7).1 = ApiResponse.ok ∧
     (DELETE ⟨[], []⟩ 7).1.status = 200) :=
  ⟨rfl, rfl, by simp,
   nonexistent_id_acknowledged ⟨[], []⟩ _ 7 rfl rfl (by simp)⟩

/-- C6: PUT overwrites every scalar field of the question row with the
given id from the request body; an omitted optional field becomes its
default (subtext/hint the empty string, validationKey/input/
next_question_id null), independent of the previously stored values. -/
theorem put_full_replace_scalars (db : DB) (body : QuestionIn) (qid : Nat)
    (h1 : body.id = some qid) (h2 : anyBlankLabel body.options = false) :
    ∀ q ∈ db.questions, q.id = qid →
      (⟨qid, body.field, body.text, body.subtext.getD "", body.type,
        body.hint.getD "", body.validationKey, body.input,
        body.next_question_id⟩ : QuestionRow) ∈ (PUT db body).2.1.questions := by
  intro q hq hqid
  have hrow : updateQuestionRow body qid q =
      ⟨qid, body.field, body.text, body.subtext.getD "", body.type,
       body.hint.getD "", body.validationKey, body.input,
       body.next_question_id⟩ := by
    simp [updateQuestionRow, hqid]
  have : (PUT db body).2.1.questions =
      db.questions.map (updateQuestionRow body qid) := by
    simp [PUT, h1, h2]
  rw [this, ← hrow]
  exact List.mem_map_of_mem _ hq

/-- Witness for C6: an update omitting every optional field resets the
stored subtext/hint/validationKey/input/next_question_id. -/
theorem put_full_replace_scalars_witness :
    (⟨some 1, "f2", "t2", none, "number", none, none, none, none, none⟩ :
      QuestionIn).id = some 1 ∧
    anyBlankLabel (⟨some 1, "f2", "t2", none, "number", none, none, none,
      none, none⟩ : QuestionIn).options = false ∧
    (∀ q ∈ (⟨[⟨1, "f", "t", "old sub", "text", "old hint", some "vk",
               some "cfg", some 9⟩], []⟩ : DB).questions, q.id = 1 →
      (⟨1, "f2", "t2", "", "number", "", none, none, none⟩ : QuestionRow) ∈
        (PUT ⟨[⟨1, "f", "t", "old sub", "text", "old hint", some "vk",
                some "cfg", some 9⟩], []⟩
           ⟨some 1, "f2", "t2", none, "number", none, none, none, none,
            none⟩).2.1.questions) :=
  ⟨rfl, rfl,
   put_full_replace_scalars _ _ 1 rfl rfl⟩

/-- Row/write shape of POST's option-insert loop, for any starting
accumulator. -/
theorem post_fold_spec (qId : Nat) (os : List OptionIn) :
    ∀ (opts : List OptionRow) (ws : List Write),
      ∃ rows : List OptionRow,
        (os.foldl (postInsertOption qId) (opts, ws)).1 = opts ++ rows ∧
        (os.foldl (postInsertOption qId) (opts, ws)).2 =
          ws ++ rows.map Write.insertOption ∧
        List.Forall₂ (fun (o : OptionIn) (r : OptionRow) =>
          r.question_id = qId ∧ r.label = o.label ∧
          r.next_question_id = o.next_question_id ∧
          r.price_modifier = o.price_modifier.getD 0) os rows := by
  induction os with
  | nil => intro opts ws; exact ⟨[], by simp, by simp, List.Forall₂.nil⟩
  | cons o rest ih =>
    intro opts ws
    obtain ⟨rows, h1, h2, h3⟩ :=
      ih (opts ++ [optionRowOf (freshOptionId opts) qId o])
        (ws ++ [Write.insertOption (optionRowOf (freshOptionId opts) qId o)])
    refine ⟨optionRowOf (freshOptionId opts) qId o :: rows, ?_, ?_, ?_⟩
    · rw [List.foldl_cons]
      show (rest.foldl (postInsertOption qId)
        (opts ++ [optionRowOf (freshOptionId opts) qId o],
         ws ++ [Write.insertOption (optionRowOf (freshOptionId opts) qId o)])).1 = _
      rw [h1, List.append_assoc]
      rfl
    · rw [List.foldl_cons]
      show (rest.foldl (postInsertOption qId)
        (opts ++ [optionRowOf (freshOptionId opts) qId o],
         ws ++ [Write.insertOption (optionRowOf (freshOptionId opts) qId o)])).2 = _
      rw [h2, List.append_assoc]
      rfl
    · exact List.Forall₂.cons (by simp [optionRowOf]) h3

/-- C7: POST inserts the question row first — with subtext/hint
defaulting to the empty string and validationKey/input/
next_question_id to null — and only then one option row per incoming
option, each carrying the generated parent question id and a
price_modifier defaulting to 0. -/
theorem post_question_then_options (db : DB) (body : QuestionIn)
    (h : anyBlankLabel body.options = false) :
    ∃ rows : List OptionRow,
      (POST db body).1 = ApiResponse.created
        ⟨freshQuestionId db.questions, body.field, body.text,
         body.subtext.getD "", body.type, body.hint.getD "",
         body.validationKey, body.input, body.next_question_id⟩ ∧
      (POST db body).2.1.questions = db.questions ++
        [⟨freshQuestionId db.questions, body.field, body.text,
          body.subtext.getD "", body.type, body.hint.getD "",
          body.validationKey, body.input, body.next_question_id⟩] ∧
      (POST db body).2.1.options = db.options ++ rows ∧
      (POST db body).2.2 = Write.insertQuestion
          ⟨freshQuestionId db.questions, body.field, body.text,
           body.subtext.getD "", body.type, body.hint.getD "",
           body.validationKey, body.input, body.next_question_id⟩ ::
        rows.map Write.insertOption ∧
      List.Forall₂ (fun (o : OptionIn) (r : OptionRow) =>
        r.question_id = freshQuestionId db.questions ∧ r.label = o.label ∧
        r.next_question_id = o.next_question_id ∧
        r.price_modifier = o.price_modifier.getD 0)
        (body.options.getD []) rows := by
  obtain ⟨rows, h1, h2, h3⟩ :=
    post_fold_spec (freshQuestionId db.questions) (body.options.getD [])
      db.options []
  refine ⟨rows, ?_, ?_, ?_, ?_, h3⟩ <;>
    simp [POST, h, questionRowOf, h1, h2]

/-- Witness for C7: creating a question with two options, one of them
with no price_modifier. -/
theorem post_question_then_options_witness :
    anyBlankLabel (⟨none, "age", "Your age?", none, "radio", none, none,
      none, none, some [⟨none, "A", none, none⟩, ⟨none, "B", some (-1),
      some 2⟩]⟩ : QuestionIn).options = false ∧
    (∃ rows : List OptionRow,
      (POST ⟨[], []⟩ ⟨none, "age", "Your age?", none, "radio", none, none,
          none, none, some [⟨none, "A", none, none⟩, ⟨none, "B", some (-1),
          some 2⟩]⟩).1 = ApiResponse.created
        ⟨freshQuestionId ([] : List QuestionRow), "age", "Your age?", "",
         "radio", "", none, none, none⟩ ∧
      (POST ⟨[], []⟩ ⟨none, "age", "Your age?", none, "radio", none, none,
          none, none, some [⟨none, "A", none, none⟩, ⟨none, "B", some (-1),
          some 2⟩]⟩).2.1.questions = [] ++
        [⟨freshQuestionId ([] : List QuestionRow), "age", "Your age?", "",
          "radio", "", none, none, none⟩] ∧
      (POST ⟨[], []⟩ ⟨none, "age", "Your age?", none, "radio", none, none,
          none, none, some [⟨none, "A", none, none⟩, ⟨none, "B", some (-1),
          some 2⟩]⟩).2.1.options = [] ++ rows ∧
      (POST ⟨[], []⟩ ⟨none, "age", "Your age?", none, "radio", none, none,
          none, none, some [⟨none, "A", none, none⟩, ⟨none, "B", some (-1),
          some 2⟩]⟩).2.2 = Write.insertQuestion
          ⟨freshQuestionId ([] : List QuestionRow), "age", "Your age?", "",
           "radio", "", none, none, none⟩ :: rows.map Write.insertOption ∧
      List.Forall₂ (fun (o : OptionIn) (r : OptionRow) =>
        r.question_id = freshQuestionId ([] : List QuestionRow) ∧
        r.label = o.label ∧
        r.next_question_id = o.next_question_id ∧
        r.price_modifier = o.price_modifier.getD 0)
        ((⟨none, "age", "Your age?", none, "radio", none, none, none, none,
           some [⟨none, "A", none, none⟩, ⟨none, "B", some (-1), some 2⟩]⟩ :
          QuestionIn).options.getD []) rows) :=
  ⟨rfl, post_question_then_options ⟨[], []⟩ _ rfl⟩

/-! ### Single-step lemmas about the PUT option upsert -/

theorem upsert_snd_some (qid : Nat) (st : List OptionRow × List Nat)
    (o : OptionIn) (oid : Nat) (h : o.id = some oid) :
    (upsertOneOption qid st o).2 = st.2 ++ [oid] := by
  cases hany : st.1.any (fun r => r.id == oid) <;>
    simp [upsertOneOption, h, hany]

theorem upsert_snd_none (qid : Nat) (st : List OptionRow × List Nat)
    (o : OptionIn) (h : o.id = none) :
    (upsertOneOption qid st o).2 = st.2 ++ [freshOptionId st.1] := by
  simp [upsertOneOption, h]

theorem upsert_snd_shape (qid : Nat) (st : List OptionRow × List Nat)
    (o : OptionIn) : ∃ j, (upsertOneOption qid st o).2 = st.2 ++ [j] := by
  cases h : o.id with
  | none => exact ⟨_, upsert_snd_none qid st o h⟩
  | some oid => exact ⟨oid, upsert_snd_some qid st o oid h⟩

theorem upsert_snd_length (qid : Nat) (st : List OptionRow × List Nat)
    (o : OptionIn) :
    (upsertOneOption qid st o).2.length = st.2.length + 1 := by
  obtain ⟨j, hj⟩ := upsert_snd_shape qid st o
  simp [hj]

theorem upsert_seen_mono (qid : Nat) (st : List OptionRow × List Nat)
    (o : OptionIn) (i : Nat) (h : i ∈ st.2) :
    i ∈ (upsertOneOption qid st o).2 := by
  obtain ⟨j, hj⟩ := upsert_snd_shape qid st o
  rw [hj]
  exact List.mem_append_left _ h

theorem upsert_fst_none (qid : Nat) (st : List OptionRow × List Nat)
    (o : OptionIn) (h : o.id = none) :
    (upsertOneOption qid st o).1 = st.1 ++
      [⟨freshOptionId st.1, qid, o.label, o.next_question_id,
        o.price_modifier.getD 0⟩] := by
  simp [upsertOneOption, h]

theorem upsert_fst_insert (qid : Nat) (st : List OptionRow × List Nat)
    (o : OptionIn) (oid : Nat) (h : o.id = some oid)
    (hany : st.1.any (fun r => r.id == oid) = false) :
    (upsertOneOption qid st o).1 = st.1 ++
      [⟨oid, qid, o.label, o.next_question_id, o.price_modifier.getD 0⟩] := by
  simp [upsertOneOption, h, hany]

theorem upsert_fst_update (qid : Nat) (st : List OptionRow × List Nat)
    (o : OptionIn) (oid : Nat) (h : o.id = some oid)
    (hany : st.1.any (fun r => r.id == oid) = true) :
    (upsertOneOption qid st o).1 = st.1.map (fun r =>
      if r.id == oid then
        ⟨r.id, r.question_id, o.label, o.next_question_id,
         o.price_modifier.getD 0⟩
      else r) := by
  simp [upsertOneOption, h, hany]

theorem upsert_ids_mono (qid : Nat) (st : List OptionRow × List Nat)
    (o : OptionIn) (i : Nat) (h : i ∈ st.1.map OptionRow.id) :
    i ∈ (upsertOneOption qid st o).1.map OptionRow.id := by
  cases ho : o.id with
  | none =>
    rw [upsert_fst_none qid st o ho, List.map_append]
    exact List.mem_append_left _ h
  | some oid =>
    cases hany : st.1.any (fun r => r.id == oid) with
    | false =>
      rw [upsert_fst_insert qid st o oid ho hany, List.map_append]
      exact List.mem_append_left _ h
    | true =>
      rw [upsert_fst_update qid st o oid ho hany]
      obtain ⟨r, hr, hri⟩ := List.mem_map.mp h
      refine List.mem_map.mpr ⟨_, List.mem_map_of_mem _ hr, ?_⟩
      cases hc : (r.id == oid) <;> simp [hc, hri]

theorem upsert_row_mono (qid : Nat) (st : List OptionRow × List Nat)
    (o : OptionIn) (i j : Nat)
    (h : ∃ r ∈ st.1, r.id = i ∧ r.question_id = j) :
    ∃ r ∈ (upsertOneOption qid st o).1, r.id = i ∧ r.question_id = j := by
  obtain ⟨r, hr, hri, hrq⟩ := h
  cases ho : o.id with
  | none =>
    rw [upsert_fst_none qid st o ho]
    exact ⟨r, List.mem_append_left _ hr, hri, hrq⟩
  | some oid =>
    cases hany : st.1.any (fun r => r.id == oid) with
    | false =>
      rw [upsert_fst_insert qid st o oid ho hany]
      exact ⟨r, List.mem_append_left _ hr, hri, hrq⟩
    | true =>
      rw [upsert_fst_update qid st o oid ho hany]
      refine ⟨_, List.mem_map_of_mem _ hr, ?_⟩
      cases hc : (r.id == oid) <;> simp [hc, hri, hrq]

theorem upsert_some_mem (qid : Nat) (st : List OptionRow × List Nat)
    (o : OptionIn) (oid : Nat) (h : o.id = some oid) :
    oid ∈ (upsertOneOption qid st o).1.map OptionRow.id := by
  cases hany : st.1.any (fun r => r.id == oid) with
  | false =>
    rw [upsert_fst_insert qid st o oid h hany, List.map_append]
    exact List.mem_append_right _ (by simp)
  | true =>
    rw [upsert_fst_update qid st o oid h hany]
    obtain ⟨r, hr, hre⟩ := List.any_eq_true.mp hany
    have hrid : r.id = oid := by simpa using hre
    refine List.mem_map.mpr ⟨_, List.mem_map_of_mem _ hr, ?_⟩
    simp [hrid]

/-! ### Fold-level lemmas about the PUT option loop -/

theorem fold_ids_mono (qid : Nat) (os : List OptionIn) :
    ∀ (st : List OptionRow × List Nat) (i : Nat),
      i ∈ st.1.map OptionRow.id →
      i ∈ (os.foldl (upsertOneOption qid) st).1.map OptionRow.id := by
  induction os with
  | nil => intro st i h; exact h
  | cons o rest ih =>
    intro st i h
    exact ih (upsertOneOption qid st o) i (upsert_ids_mono qid st o i h)

theorem fold_row_mono (qid : Nat) (os : List OptionIn) :
    ∀ (st : List OptionRow × List Nat) (i j : Nat),
      (∃ r ∈ st.1, r.id = i ∧ r.question_id = j) →
      ∃ r ∈ (os.foldl (upsertOneOption qid) st).1, r.id = i ∧ r.question_id = j := by
  induction os with
  | nil => intro st i j h; exact h
  | cons o rest ih =>
    intro st i j h
    exact ih (upsertOneOption qid st o) i j (upsert_row_mono qid st o i j h)

theorem fold_seen_mono (qid : Nat) (os : List OptionIn) :
    ∀ (st : List OptionRow × List Nat) (i : Nat),
      i ∈ st.2 → i ∈ (os.foldl (upsertOneOption qid) st).2 := by
  induction os with
  | nil => intro st i h; exact h
  | cons o rest ih =>
    intro st i h
    exact ih (upsertOneOption qid st o) i (upsert_seen_mono qid st o i h)

theorem fold_snd_length (qid : Nat) (os : List OptionIn) :
    ∀ st : List OptionRow × List Nat,
      (os.foldl (upsertOneOption qid) st).2.length = st.2.length + os.length := by
  induction os with
  | nil => intro st; simp
  | cons o rest ih =>
    intro st
    rw [List.foldl_cons, ih (upsertOneOption qid st o),
      upsert_snd_length qid st o]
    simp [Nat.add_assoc, Nat.add_comm 1]

theorem fold_mem_some (qid : Nat) (os : List OptionIn) :
    ∀ (st : List OptionRow × List Nat) (o : OptionIn) (oid : Nat),
      o ∈ os → o.id = some oid →
      oid ∈ (os.foldl (upsertOneOption qid) st).1.map OptionRow.id ∧
      oid ∈ (os.foldl (upsertOneOption qid) st).2 := by
  induction os with
  | nil => intro st o oid h; cases h
  | cons o0 rest ih =>
    intro st o oid hmem hid
    rcases List.mem_cons.mp hmem with rfl | hmem
    · constructor
      · exact fold_ids_mono qid rest _ oid (upsert_some_mem qid st o oid hid)
      · refine fold_seen_mono qid rest _ oid ?_
        rw [upsert_snd_some qid st o oid hid]
        exact List.mem_append_right _ (by simp)
    · exact ih (upsertOneOption qid st o0) o oid hmem hid

theorem fold_insert_new (qid : Nat) (os : List OptionIn) :
    ∀ (st : List OptionRow × List Nat) (o : OptionIn),
      o ∈ os → o.id = none →
      ∃ i, i ∉ st.1.map OptionRow.id ∧
        i ∈ (os.foldl (upsertOneOption qid) st).2 ∧
        ∃ r ∈ (os.foldl (upsertOneOption qid) st).1,
          r.id = i ∧ r.question_id = qid := by
  induction os with
  | nil => intro st o h; cases h
  | cons o0 rest ih =>
    intro st o hmem hid
    rcases List.mem_cons.mp hmem with rfl | hmem
    · refine ⟨freshOptionId st.1, freshOptionId_not_mem st.1, ?_, ?_⟩
      · refine fold_seen_mono qid rest _ _ ?_
        rw [upsert_snd_none qid st o hid]
        exact List.mem_append_right _ (by simp)
      · refine fold_row_mono qid rest _ _ _ ?_
        rw [upsert_fst_none qid st o hid]
        exact ⟨⟨freshOptionId st.1, qid, o.label, o.next_question_id,
          o.price_modifier.getD 0⟩,
          List.mem_append_right _ (List.mem_singleton.mpr rfl), rfl, rfl⟩
    · obtain ⟨i, hnot, hseen, hrow⟩ := ih (upsertOneOption qid st o0) o hmem hid
      refine ⟨i, fun hc => hnot (upsert_ids_mono qid st o0 i hc), hseen, hrow⟩

/-- C1: after a PUT whose options array is non-empty, no option row of
the target question survives with an id outside the post-upsert "kept"
set — so every pre-existing option row of the question whose id is not
kept is gone — and every incoming option without an id has been
inserted as a brand-new row (an id absent from the old table) owned by
the question. -/
theorem put_reconciles_options (db : DB) (body : QuestionIn) (qid : Nat)
    (os : List OptionIn)
    (h1 : body.id = some qid) (h2 : body.options = some os) (h3 : os ≠ [])
    (h4 : anyBlankLabel body.options = false) :
    (∀ r ∈ db.options, r.question_id = qid →
        r.id ∉ keptIds qid db.options os →
        ∀ r' ∈ (PUT db body).2.1.options,
          ¬(r'.question_id = qid ∧ r'.id = r.id)) ∧
    (∀ o ∈ os, o.id = none →
        ∃ r' ∈ (PUT db body).2.1.options, r'.question_id = qid ∧
          r'.id ∉ db.options.map OptionRow.id) := by
  have hlen : (putUpsert qid db.options os).2.length = os.length := by
    rw [putUpsert, fold_snd_length qid os (db.options, [])]; simp
  have hne : (putUpsert qid db.options os).2.isEmpty = false := by
    cases hs : (putUpsert qid db.options os).2 with
    | nil => rw [hs] at hlen; cases os with
      | nil => exact absurd rfl h3
      | cons a t => simp at hlen
    | cons a t => rfl
  have h4' : anyBlankLabel (some os) = false := h2 ▸ h4
  have hopts : (PUT db body).2.1.options =
      deleteStale qid (putUpsert qid db.options os).2
        (putUpsert qid db.options os).1 := by
    simp [PUT, h1, h2, h4', hne]
  constructor
  · intro r _ hrq hnot r' hr' hand
    obtain ⟨hq', hi'⟩ := hand
    rw [hopts] at hr'
    obtain ⟨hr'mem, hcond⟩ := List.mem_filter.mp hr'
    rw [hq'] at hcond
    simp at hcond
    apply hnot
    rw [keptIds, ← hi']
    exact hcond
  · intro o hmem hid
    obtain ⟨i, hnot, hseen, r, hr, hri, hrq⟩ :=
      fold_insert_new qid os (db.options, []) o hmem hid
    refine ⟨r, ?_, hrq, by rw [hri]; exact hnot⟩
    rw [hopts, deleteStale]
    refine List.mem_filter.mpr ⟨hr, ?_⟩
    simp
    exact Or.inr (by rw [hri]; exact hseen)

/-- Witness for C1: question 1 previously owns rows 5 and 6; the update
resends only id 5 plus a fresh id-less option. -/
theorem put_reconciles_options_witness :
    (⟨some 1, "f", "t", none, "radio", none, none, none, none,
       some [⟨some 5, "A2", none, none⟩, ⟨none, "C", none, none⟩]⟩ :
      QuestionIn).id = some 1 ∧
    (⟨some 1, "f", "t", none, "radio", none, none, none, none,
       some [⟨some 5, "A2", none, none⟩, ⟨none, "C", none, none⟩]⟩ :
      QuestionIn).options =
      some [⟨some 5, "A2", none, none⟩, ⟨none, "C", none, none⟩] ∧
    ([⟨some 5, "A2", none, none⟩, ⟨none, "C", none, none⟩] :
      List OptionIn) ≠ [] ∧
    anyBlankLabel (⟨some 1, "f", "t", none, "radio", none, none, none, none,
       some [⟨some 5, "A2", none, none⟩, ⟨none, "C", none, none⟩]⟩ :
      QuestionIn).options = false ∧
    ((∀ r ∈ (⟨[⟨1, "f", "t", "", "radio", "", none, none, none⟩],
              [⟨5, 1, "A", none, 0⟩, ⟨6, 1, "B", none, 0⟩]⟩ : DB).options,
        r.question_id = 1 →
        r.id ∉ keptIds 1 [⟨5, 1, "A", none, 0⟩, ⟨6, 1, "B", none, 0⟩]
          [⟨some 5, "A2", none, none⟩, ⟨none, "C", none, none⟩] →
        ∀ r' ∈ (PUT ⟨[⟨1, "f", "t", "", "radio", "", none, none, none⟩],
                     [⟨5, 1, "A", none, 0⟩, ⟨6, 1, "B", none, 0⟩]⟩
            ⟨some 1, "f", "t", none, "radio", none, none, none, none,
             some [⟨some 5, "A2", none, none⟩, ⟨none, "C", none,
             none⟩]⟩).2.1.options,
          ¬(r'.question_id = 1 ∧ r'.id = r.id)) ∧
     (∀ o ∈ ([⟨some 5, "A2", none, none⟩, ⟨none, "C", none, none⟩] :
         List OptionIn), o.id = none →
        ∃ r' ∈ (PUT ⟨[⟨1, "f", "t", "", "radio", "", none, none, none⟩],
                     [⟨5, 1, "A", none, 0⟩, ⟨6, 1, "B", none, 0⟩]⟩
            ⟨some 1, "f", "t", none, "radio", none, none, none, none,
             some [⟨some 5, "A2", none, none⟩, ⟨none, "C", none,
             none⟩]⟩).2.1.options, r'.question_id = 1 ∧
          r'.id ∉ ([⟨5, 1, "A", none, 0⟩, ⟨6, 1, "B", none, 0⟩] :
            List OptionRow).map OptionRow.id)) :=
  ⟨rfl, rfl, by decide, rfl,
   put_reconciles_options
     ⟨[⟨1, "f", "t", "", "radio", "", none, none, none⟩],
      [⟨5, 1, "A", none, 0⟩, ⟨6, 1, "B", none, 0⟩]⟩ _ 1
     [⟨some 5, "A2", none, none⟩, ⟨none, "C", none, none⟩]
     rfl rfl (by decide) rfl⟩

/-! ### Lemmas about `updOne` / `applyAll` -/

theorem updOne_preserves (o : OptionIn) (r : OptionRow) :
    (updOne o r).id = r.id ∧ (updOne o r).question_id = r.question_id := by
  unfold updOne
  cases o.id with
  | none => exact ⟨rfl, rfl⟩
  | some oid => cases h : (r.id == oid) <;> simp [h]

theorem applyAll_preserves (os : List OptionIn) :
    ∀ r : OptionRow, (applyAll os r).id = r.id ∧
      (applyAll os r).question_id = r.question_id := by
  induction os with
  | nil => intro r; exact ⟨rfl, rfl⟩
  | cons o rest ih =>
    intro r
    have hstep : applyAll (o :: rest) r = applyAll rest (updOne o r) := rfl
    rw [hstep]
    obtain ⟨h1, h2⟩ := ih (updOne o r)
    obtain ⟨h3, h4⟩ := updOne_preserves o r
    exact ⟨h1.trans h3, h2.trans h4⟩

theorem updOne_no_match (o : OptionIn) (oid : Nat) (ho : o.id = some oid)
    (z : OptionRow) (hc : (z.id == oid) = false) : updOne o z = z := by
  unfold updOne
  rw [ho]
  simp [hc]

theorem updOne_none (o : OptionIn) (ho : o.id = none) (z : OptionRow) :
    updOne o z = z := by
  unfold updOne
  rw [ho]

theorem applyAll_no_match (os : List OptionIn) :
    ∀ z : OptionRow, (∀ o ∈ os, o.id ≠ some z.id) → applyAll os z = z := by
  induction os with
  | nil => intro z _; rfl
  | cons o rest ih =>
    intro z h
    have hstep : applyAll (o :: rest) z = applyAll rest (updOne o z) := rfl
    have hz : updOne o z = z := by
      cases ho : o.id with
      | none => exact updOne_none o ho z
      | some oid =>
        refine updOne_no_match o oid ho z ?_
        refine beq_eq_false_iff_ne.mpr ?_
        intro hc
        exact h o (List.mem_cons_self o rest) (by rw [ho, hc])
    rw [hstep, hz]
    exact ih z (fun o' h' => h o' (List.mem_cons_of_mem o h'))

theorem upsert_update_fn_eq (o : OptionIn) (oid : Nat) (ho : o.id = some oid) :
    (fun r : OptionRow =>
      if r.id == oid then
        ⟨r.id, r.question_id, o.label, o.next_question_id,
         o.price_modifier.getD 0⟩
      else r) = updOne o := by
  funext r
  unfold updOne
  rw [ho]

theorem updOne_some (o : OptionIn) (oid : Nat) (ho : o.id = some oid)
    (z : OptionRow) :
    updOne o z =
      if z.id == oid then
        ⟨z.id, z.question_id, o.label, o.next_question_id,
         o.price_modifier.getD 0⟩
      else z :=
  (congrFun (upsert_update_fn_eq o oid ho) z).symm

theorem updOne_fixed_point (o : OptionIn) (oid : Nat) (ho : o.id = some oid)
    (os' : List OptionIn) (z : OptionRow) (hz : z.id = oid)
    (hl : z.label = o.label) (hn : z.next_question_id = o.next_question_id)
    (hp : z.price_modifier = o.price_modifier.getD 0) :
    updOne o (applyAll os' z) = z := by
  obtain ⟨h1, h2⟩ := applyAll_preserves os' z
  have hc : ((applyAll os' z).id == oid) = true := by
    rw [h1, hz]; exact beq_self_eq_true oid
  rw [updOne_some o oid ho, if_pos hc]
  cases z with
  | mk zid zqid zl zn zp => simp_all

/-! ### Generic list helpers -/

theorem filter_self_idem {α : Type _} (p : α → Bool) (l : List α) :
    (l.filter p).filter p = l.filter p := by
  induction l with
  | nil => rfl
  | cons a t ih =>
    cases hp : p a <;> simp [List.filter_cons, hp, ih]

theorem map_eq_self_of_fixed {α : Type _} (f : α → α) (l : List α)
    (h : ∀ x ∈ l, f x = x) : l.map f = l := by
  induction l with
  | nil => rfl
  | cons a t ih =>
    rw [List.map_cons, h a (List.mem_cons_self a t),
      ih (fun x hx => h x (List.mem_cons_of_mem a hx))]

/-! ### The upsert loop when every incoming option carries an id -/

theorem fold_seen_all_some (qid : Nat) : ∀ (os : List OptionIn),
    (∀ o ∈ os, o.id.isSome) →
    ∀ st : List OptionRow × List Nat,
      (os.foldl (upsertOneOption qid) st).2 =
        st.2 ++ os.filterMap OptionIn.id := by
  intro os
  induction os with
  | nil => intro _ st; simp
  | cons o rest ih =>
    intro hall st
    obtain ⟨oid, hoid⟩ := Option.isSome_iff_exists.mp (hall o (by simp))
    rw [List.foldl_cons,
      ih (fun o' h' => hall o' (List.mem_cons_of_mem o h')) _,
      upsert_snd_some qid st o oid hoid, List.filterMap_cons, hoid,
      List.append_assoc]
    rfl

theorem fold_all_present_eq_map (qid : Nat) : ∀ (os : List OptionIn),
    (∀ o ∈ os, o.id.isSome) →
    ∀ (opts : List OptionRow) (sn : List Nat),
      (∀ o ∈ os, ∀ oid, o.id = some oid → oid ∈ opts.map OptionRow.id) →
      (os.foldl (upsertOneOption qid) (opts, sn)).1 =
        opts.map (applyAll os) := by
  intro os
  induction os with
  | nil =>
    intro _ opts sn _
    exact (map_eq_self_of_fixed _ opts (fun x _ => rfl)).symm
  | cons o rest ih =>
    intro hall opts sn hpres
    obtain ⟨oid, hoid⟩ := Option.isSome_iff_exists.mp (hall o (by simp))
    obtain ⟨r0, hr0, hr0id⟩ :=
      List.mem_map.mp (hpres o (by simp) oid hoid)
    have hany : opts.any (fun r => r.id == oid) = true :=
      List.any_eq_true.mpr ⟨r0, hr0, by rw [hr0id]; exact beq_self_eq_true oid⟩
    have hstep : upsertOneOption qid (opts, sn) o =
        (opts.map (updOne o), sn ++ [oid]) := by
      have h1 : (upsertOneOption qid (opts, sn) o).1 = opts.map (updOne o) := by
        rw [upsert_fst_update qid (opts, sn) o oid hoid hany,
          upsert_update_fn_eq o oid hoid]
      have h2 : (upsertOneOption qid (opts, sn) o).2 = sn ++ [oid] :=
        upsert_snd_some qid (opts, sn) o oid hoid
      rw [← h1, ← h2]
    have hids : (opts.map (updOne o)).map OptionRow.id =
        opts.map OptionRow.id := by
      rw [List.map_map]
      have hfun : OptionRow.id ∘ updOne o = OptionRow.id :=
        funext (fun r => (updOne_preserves o r).1)
      rw [hfun]
    rw [List.foldl_cons, hstep,
      ih (fun o' h' => hall o' (List.mem_cons_of_mem o h'))
        (opts.map (updOne o)) (sn ++ [oid])
        (fun o' h' oid' hoid' => by
          rw [hids]
          exact hpres o' (List.mem_cons_of_mem o h') oid' hoid'),
      List.map_map]
    rfl

theorem fold_rows_stable (qid : Nat) : ∀ (os : List OptionIn),
    (∀ o ∈ os, o.id.isSome) →
    ∀ st : List OptionRow × List Nat,
      ∀ r ∈ (os.foldl (upsertOneOption qid) st).1, applyAll os r = r := by
  intro os
  induction os using List.reverseRecOn with
  | nil => intro _ st r _; rfl
  | append_singleton os' o ih =>
    intro hall st r hr
    have hall' : ∀ o' ∈ os', o'.id.isSome :=
      fun o' h' => hall o' (List.mem_append_left _ h')
    obtain ⟨oid, hoid⟩ := Option.isSome_iff_exists.mp
      (hall o (List.mem_append_right _ (List.mem_singleton.mpr rfl)))
    rw [List.foldl_append] at hr
    have happ : ∀ x : OptionRow,
        applyAll (os' ++ [o]) x = updOne o (applyAll os' x) := by
      intro x
      rw [applyAll, List.foldl_append]
      rfl
    have hr' : r ∈ (upsertOneOption qid
        (os'.foldl (upsertOneOption qid) st) o).1 := hr
    cases hany : (os'.foldl (upsertOneOption qid) st).1.any
        (fun rr => rr.id == oid) with
    | true =>
      rw [upsert_fst_update qid _ o oid hoid hany,
        upsert_update_fn_eq o oid hoid] at hr'
      obtain ⟨r1, hr1, hr1e⟩ := List.mem_map.mp hr'
      rw [← hr1e, happ]
      cases hc : (r1.id == oid) with
      | true =>
        have hset : updOne o r1 =
            ⟨r1.id, r1.question_id, o.label, o.next_question_id,
             o.price_modifier.getD 0⟩ := by
          rw [updOne_some o oid hoid, if_pos hc]
        rw [hset]
        exact updOne_fixed_point o oid hoid os' _
          (eq_of_beq hc) rfl rfl rfl
      | false =>
        have hid1 : updOne o r1 = r1 := updOne_no_match o oid hoid r1 hc
        rw [hid1, ih hall' st r1 hr1]
        exact hid1
    | false =>
      rw [upsert_fst_insert qid _ o oid hoid hany] at hr'
      rcases List.mem_append.mp hr' with hmem | hnew
      · have hfix : applyAll os' r = r := ih hall' st r hmem
        have hc : (r.id == oid) = false := by
          cases hcc : (r.id == oid) with
          | false => rfl
          | true =>
            exact absurd (List.any_eq_true.mpr ⟨r, hmem, hcc⟩)
              (by rw [hany]; exact Bool.false_ne_true)
        rw [happ, hfix]
        exact updOne_no_match o oid hoid r hc
      · have hreq : r = ⟨oid, qid, o.label, o.next_question_id,
            o.price_modifier.getD 0⟩ := List.mem_singleton.mp hnew
        have hno : ∀ o' ∈ os', o'.id ≠ some r.id := by
          intro o' ho' hc
          have : r.id ∈ (os'.foldl (upsertOneOption qid) st).1.map
              OptionRow.id :=
            (fold_mem_some qid os' st o' r.id ho' hc).1
          obtain ⟨rr, hrr, hrrid⟩ := List.mem_map.mp this
          have : (os'.foldl (upsertOneOption qid) st).1.any
              (fun x => x.id == oid) = true :=
            List.any_eq_true.mpr ⟨rr, hrr,
              by rw [hrrid, hreq]; exact beq_self_eq_true oid⟩
          rw [hany] at this
          exact Bool.false_ne_true this
        rw [happ, applyAll_no_match os' r hno, hreq,
          updOne_some o oid hoid, if_pos (beq_self_eq_true oid)]

/-! ### Delete-step helpers and PUT component shapes -/

theorem deleteStale_subset (qid : Nat) (kept : List Nat)
    (opts : List OptionRow) : ∀ r ∈ deleteStale qid kept opts, r ∈ opts :=
  fun _ hr => (List.mem_filter.mp hr).1

theorem deleteStale_idem (qid : Nat) (kept : List Nat)
    (opts : List OptionRow) :
    deleteStale qid kept (deleteStale qid kept opts) =
      deleteStale qid kept opts :=
  filter_self_idem _ opts

theorem mem_ids_deleteStale (qid : Nat) (kept : List Nat)
    (opts : List OptionRow) (i : Nat) (hi : i ∈ kept)
    (h : i ∈ opts.map OptionRow.id) :
    i ∈ (deleteStale qid kept opts).map OptionRow.id := by
  obtain ⟨r, hr, hrid⟩ := List.mem_map.mp h
  refine List.mem_map.mpr ⟨r, ?_, hrid⟩
  refine List.mem_filter.mpr ⟨hr, ?_⟩
  simp
  exact Or.inr (by rw [hrid]; exact hi)

theorem DB_ext (d1 d2 : DB) (hq : d1.questions = d2.questions)
    (ho : d1.options = d2.options) : d1 = d2 := by
  cases d1 with
  | mk a b =>
    cases d2 with
    | mk c d =>
      rw [DB.mk.injEq]
      exact ⟨hq, ho⟩

theorem updateQuestionRow_idem (b : QuestionIn) (qid : Nat) (q : QuestionRow) :
    updateQuestionRow b qid (updateQuestionRow b qid q) =
      updateQuestionRow b qid q := by
  unfold updateQuestionRow
  cases h : (q.id == qid) <;> simp [h]

theorem put_components (db : DB) (body : QuestionIn) (qid : Nat)
    (h1 : body.id = some qid) (h2 : anyBlankLabel body.options = false) :
    (PUT db body).1 = ApiResponse.ok ∧
    (PUT db body).2.1.questions =
      db.questions.map (updateQuestionRow body qid) ∧
    (PUT db body).2.1.options =
      (if (putUpsert qid db.options (body.options.getD [])).2.isEmpty then
        (putUpsert qid db.options (body.options.getD [])).1
      else deleteStale qid
        (putUpsert qid db.options (body.options.getD [])).2
        (putUpsert qid db.options (body.options.getD [])).1) ∧
    (PUT db body).2.2 = Write.updateQuestion qid ::
      ((body.options.getD []).map (fun o =>
        Write.upsertOption o.id qid o.label o.next_question_id
          (o.price_modifier.getD 0)) ++
       (if (putUpsert qid db.options (body.options.getD [])).2.isEmpty then []
        else [Write.deleteOptionsNotIn qid
          (putUpsert qid db.options (body.options.getD [])).2])) := by
  refine ⟨?_, ?_, ?_, ?_⟩ <;> simp [PUT, h1, h2]

/-- C5: a PUT whose incoming options all carry ids is idempotent:
running the handler a second time on the state it produced returns the
same response, the same write statements, and leaves the question and
option tables exactly as after the first run. -/
theorem put_idempotent (db : DB) (body : QuestionIn)
    (hall : ∀ o ∈ body.options.getD [], o.id.isSome) :
    PUT (PUT db body).2.1 body = PUT db body := by
  cases hid : body.id with
  | none =>
    have h0 : (PUT db body).2.1 = db := by simp [PUT, hid]
    rw [h0]
  | some qid =>
    cases hbl : anyBlankLabel body.options with
    | true =>
      have h0 : (PUT db body).2.1 = db := by simp [PUT, hid, hbl]
      rw [h0]
    | false =>
      obtain ⟨r1, q1, o1, w1⟩ := put_components db body qid hid hbl
      obtain ⟨r2, q2, o2, w2⟩ :=
        put_components (PUT db body).2.1 body qid hid hbl
      have hsnX : ∀ X : List OptionRow,
          (putUpsert qid X (body.options.getD [])).2 =
            (body.options.getD []).filterMap OptionIn.id := by
        intro X
        rw [putUpsert,
          fold_seen_all_some qid (body.options.getD []) hall (X, [])]
        rfl
      have hdb1o : (PUT db body).2.1.options =
          (if ((body.options.getD []).filterMap OptionIn.id).isEmpty then
            (putUpsert qid db.options (body.options.getD [])).1
          else deleteStale qid
            ((body.options.getD []).filterMap OptionIn.id)
            (putUpsert qid db.options (body.options.getD [])).1) := by
        rw [o1]
        simp only [hsnX]
      have hpres1 : ∀ o ∈ body.options.getD [], ∀ oid, o.id = some oid →
          oid ∈ ((putUpsert qid db.options (body.options.getD [])).1).map
              OptionRow.id ∧
            oid ∈ (body.options.getD []).filterMap OptionIn.id := by
        intro o ho oid hoid
        have h := fold_mem_some qid (body.options.getD [])
          (db.options, []) o oid ho hoid
        exact ⟨h.1, by rw [← hsnX db.options]; exact h.2⟩
      have hpres2 : ∀ o ∈ body.options.getD [], ∀ oid, o.id = some oid →
          oid ∈ ((PUT db body).2.1.options).map OptionRow.id := by
        intro o ho oid hoid
        obtain ⟨hin, hfm⟩ := hpres1 o ho oid hoid
        rw [hdb1o]
        cases hE : ((body.options.getD []).filterMap OptionIn.id).isEmpty with
        | true => simpa using hin
        | false => simpa using mem_ids_deleteStale qid _ _ oid hfm hin
      have hstable : ∀ r ∈ (PUT db body).2.1.options,
          applyAll (body.options.getD []) r = r := by
        intro r hr
        rw [hdb1o] at hr
        have hrt : r ∈ (putUpsert qid db.options (body.options.getD [])).1 := by
          cases hE : ((body.options.getD []).filterMap OptionIn.id).isEmpty with
          | true => rw [if_pos hE] at hr; exact hr
          | false =>
            rw [if_neg (by simp [hE])] at hr
            exact deleteStale_subset _ _ _ r hr
        exact fold_rows_stable qid (body.options.getD []) hall
          (db.options, []) r hrt
      have ht2 : (putUpsert qid (PUT db body).2.1.options
          (body.options.getD [])).1 = (PUT db body).2.1.options := by
        rw [putUpsert,
          fold_all_present_eq_map qid (body.options.getD []) hall
            ((PUT db body).2.1.options) [] hpres2]
        exact map_eq_self_of_fixed _ _ hstable
      have hresp : (PUT (PUT db body).2.1 body).1 = (PUT db body).1 := by
        rw [r2, r1]
      have hfun : updateQuestionRow body qid ∘ updateQuestionRow body qid =
          updateQuestionRow body qid :=
        funext (updateQuestionRow_idem body qid)
      have hqs : (PUT (PUT db body).2.1 body).2.1.questions =
          (PUT db body).2.1.questions := by
        rw [q2, q1, List.map_map, hfun]
      have hos : (PUT (PUT db body).2.1 body).2.1.options =
          (PUT db body).2.1.options := by
        rw [o2]
        simp only [hsnX]
        rw [ht2]
        cases hE : ((body.options.getD []).filterMap OptionIn.id).isEmpty with
        | true => simp
        | false =>
          simp only [Bool.false_eq_true, if_false]
          have hO1 : (PUT db body).2.1.options =
              deleteStale qid ((body.options.getD []).filterMap OptionIn.id)
                (putUpsert qid db.options (body.options.getD [])).1 := by
            rw [hdb1o, if_neg (by simp [hE])]
          rw [hO1, deleteStale_idem]
      have hdb : (PUT (PUT db body).2.1 body).2.1 = (PUT db body).2.1 :=
        DB_ext _ _ hqs hos
      have hws : (PUT (PUT db body).2.1 body).2.2 = (PUT db body).2.2 := by
        rw [w2, w1]
        simp only [hsnX]
      exact Prod.ext hresp (Prod.ext hdb hws)

/-- Witness for C5: resending the resolved payload of a prior update. -/
theorem put_idempotent_witness :
    (∀ o ∈ (⟨some 1, "f", "t", none, "radio", none, none, none, none,
        some [⟨some 5, "A2", none, some 4⟩]⟩ :
      QuestionIn).options.getD [], o.id.isSome) ∧
    PUT (PUT ⟨[⟨1, "f", "t", "", "radio", "", none, none, none⟩],
              [⟨5, 1, "A", none, 0⟩, ⟨6, 1, "B", none, 0⟩]⟩
         ⟨some 1, "f", "t", none, "radio", none, none, none, none,
          some [⟨some 5, "A2", none, some 4⟩]⟩).2.1
      ⟨some 1, "f", "t", none, "radio", none, none, none, none,
       some [⟨some 5, "A2", none, some 4⟩]⟩ =
    PUT ⟨[⟨1, "f", "t", "", "radio", "", none, none, none⟩],
         [⟨5, 1, "A", none, 0⟩, ⟨6, 1, "B", none, 0⟩]⟩
      ⟨some 1, "f", "t", none, "radio", none, none, none, none,
       some [⟨some 5, "A2", none, some 4⟩]⟩ :=
  ⟨by decide,
   put_idempotent ⟨[⟨1, "f", "t", "", "radio", "", none, none, none⟩],
     [⟨5, 1, "A", none, 0⟩, ⟨6, 1, "B", none, 0⟩]⟩ _ (by decide)⟩

end QuickQuote
